import Mathlib

/-!
Verification development for the Triplit adapter for Better-Auth
(`doeixd/better-auth-adapter`).

The repository is a thin binding between the Better-Auth data-access layer
and the Triplit client.  The development below is a shallow embedding of
its two components:

* the operator/filter translator (`transformWhereOperators`,
  `filterInvalidOperators`, `mapOperatorToTriplit`), and
* the verb sequencer (`db` in `src/transform.ts`, the adapter verbs in
  `src/adapter.ts`, and the handler in `src/handler/triplit.ts`),

together with the input/output reshaping (`transformInput`,
`transformOutput`, field-selection projection).

JavaScript values are modelled by `Val` (with explicit `null` and
`undefined` and JS truthiness), records by association lists, and the
Triplit client by a deterministic state machine `ClientState` that logs
every issued store call in a trace.  The parts of the client that the
wrapper treats as opaque (the shape of the `insert` response, the value
an `update` call resolves with, `new Date(x)` parsing) are parameters
collected in `AdapterCtx`.  Filter matching (`evalOp`) is given concrete
semantics for the operator tokens Triplit supports; a token outside that
set matches no record (the real client rejects such queries — either
behaviour separates the tokens, which is all the theorems below rely on).
-/

/-- JavaScript values as they flow through the adapter: strings, numbers,
booleans, `Date` objects (by their epoch value), `null` and `undefined`. -/
inductive Val where
  | str (s : String)
  | num (n : Int)
  | bool (b : Bool)
  | date (t : Int)
  | null
  | undefined
  deriving DecidableEq, Repr

/-- JavaScript truthiness: `""`, `0`, `false`, `null`, `undefined` are falsy;
`Date` objects are always truthy. -/
def Val.truthy : Val → Bool
  | .str s => s ≠ ""
  | .num n => n ≠ 0
  | .bool b => b
  | .date _ => true
  | .null => false
  | .undefined => false

/-- Whether a value is a `Date` object (`x instanceof Date`). -/
def Val.isDateObj : Val → Bool
  | .date _ => true
  | _ => false

/-- A record (JS object): an association list of field names to values,
with at most one entry per key at the call sites the adapter produces. -/
abbrev Rec := List (String × Val)

/-- Property lookup: `some v` when the key is present. -/
def getField (r : Rec) (k : String) : Option Val :=
  (r.find? (fun p => p.1 = k)).map (fun p => p.2)

/-- JS member access `r[k]`: `undefined` when the key is absent. -/
def getFieldJS (r : Rec) (k : String) : Val :=
  (getField r k).getD .undefined

/-- JS `k in r`: property existence. -/
def hasField (r : Rec) (k : String) : Bool :=
  (getField r k).isSome

/-- JS assignment `r[k] = v`: replace the entry when present, append otherwise. -/
def setField (r : Rec) (k : String) (v : Val) : Rec :=
  if hasField r k then r.map (fun p => if p.1 = k then (k, v) else p)
  else r ++ [(k, v)]

/-- JS `x || d` for an optional string: the default is taken when the value
is absent or the empty string (both falsy). -/
def jsOr (o : Option String) (d : String) : String :=
  match o with
  | some s => if s = "" then d else s
  | none => d

/-- One filter condition, from `WhereCondition` in `src/handler/types.ts`:
field, optional operator (default `"="`), value, optional connector. -/
structure WhereCond where
  field : String
  operator : Option String
  value : Val
  connector : Option String
  deriving DecidableEq, Repr

/-- Boolean prefix test on character lists. -/
def listIsPrefixB : List Char → List Char → Bool
  | [], _ => true
  | _ :: _, [] => false
  | a :: as, b :: bs => a == b && listIsPrefixB as bs

/-- Boolean infix test on character lists. -/
def listIsInfixB (t s : List Char) : Bool :=
  match s with
  | [] => listIsPrefixB t []
  | _ :: rest => listIsPrefixB t s || listIsInfixB t rest

/-- String containment (JS `String.includes`) used by the `contains`
operator semantics. -/
def strContainsB (s t : String) : Bool :=
  listIsInfixB t.data s.data

/-- Strict comparison on values, defined where JS comparison is meaningful
for the adapter's data (numbers, dates, strings). -/
def valLt : Val → Val → Bool
  | .num a, .num b => a < b
  | .date a, .date b => a < b
  | .str a, .str b => decide (a < b)
  | _, _ => false

/-- Match semantics of one Triplit `Where` triple against a record field.
Tokens outside Triplit's supported set match no record (the real client
rejects such queries; any behaviour distinguishing the tokens suffices for
the theorems below).  Set-valued `in` / `not in` operands are not modelled;
no verified claim exercises their matching. -/
def evalOp (op : String) (fieldVal : Val) (v : Val) : Bool :=
  match op with
  | "=" => fieldVal == v
  | "!=" => fieldVal != v
  | ">" => valLt v fieldVal
  | ">=" => valLt v fieldVal || fieldVal == v
  | "<" => valLt fieldVal v
  | "<=" => valLt fieldVal v || fieldVal == v
  | "contains" =>
      match fieldVal, v with
      | .str s, .str t => strContainsB s t
      | _, _ => false
  | "not contains" =>
      match fieldVal, v with
      | .str s, .str t => !(strContainsB s t)
      | _, _ => false
  | _ => false

/-- A built Triplit query: the `Where` triples, the `Order` clauses and the
`Limit`, accumulated exactly as the source chains `.Where/.Order/.Limit`. -/
structure Query where
  conds : List (String × String × Val)
  order : List (String × String)
  limit : Option Nat
  deriving DecidableEq, Repr

/-- Conjunctive matching of a record against a query's `Where` triples. -/
def matchesConds (conds : List (String × String × Val)) (r : Rec) : Bool :=
  conds.all (fun c => evalOp c.2.1 (getFieldJS r c.1) c.2.2)

/-- Apply a query limit. -/
def applyLimit (lim : Option Nat) (rs : List Rec) : List Rec :=
  match lim with
  | none => rs
  | some n => rs.take n

/-- Store-side query evaluation: filter, then limit.  Result ordering is the
store's concern; every query the verified claims exercise carries an empty
`order` clause, so no ordering semantics is assumed. -/
def runQuery (recs : List Rec) (q : Query) : List Rec :=
  applyLimit q.limit (recs.filter (fun r => matchesConds q.conds r))

/-- One primitive call issued to the Triplit client. -/
inductive StoreCall where
  | fetch (q : Query)
  | fetchOne (q : Query)
  | fetchById (id : Val)
  | insertCall (values : Rec)
  | updateCall (id : Val) (patch : Rec)
  | deleteCall (id : Val)
  deriving DecidableEq, Repr

/-- The Triplit client modelled as one collection plus the trace of calls
issued to it.  (The verified claims involve a single collection; collection
naming is `getCollectionName` below.) -/
structure ClientState where
  recs : List Rec
  trace : List StoreCall
  deriving DecidableEq, Repr

/-- `client.fetch(query)`. -/
def cFetch (s : ClientState) (q : Query) : List Rec × ClientState :=
  (runQuery s.recs q, { s with trace := s.trace ++ [.fetch q] })

/-- `client.fetchOne(query)`: first match or `null`. -/
def cFetchOne (s : ClientState) (q : Query) : Option Rec × ClientState :=
  ((s.recs.filter (fun r => matchesConds q.conds r)).head?,
   { s with trace := s.trace ++ [.fetchOne q] })

/-- `client.fetchById(collection, id)`. -/
def cFetchById (s : ClientState) (id : Val) : Option Rec × ClientState :=
  (s.recs.find? (fun r => getFieldJS r "id" == id),
   { s with trace := s.trace ++ [.fetchById id] })

/-- `client.insert(collection, values)`: the record is stored; the shape of
the resolved response is the client's business, supplied as `resp`. -/
def cInsert (resp : Rec → Rec) (s : ClientState) (values : Rec) :
    Rec × ClientState :=
  (resp values,
   { recs := s.recs ++ [values], trace := s.trace ++ [.insertCall values] })

/-- `client.update(collection, id, patch)`: merge the patch into the record
with that id. -/
def cUpdate (s : ClientState) (id : Val) (patch : Rec) : ClientState :=
  { recs := s.recs.map (fun r =>
      if getFieldJS r "id" == id then
        patch.foldl (fun r2 p => setField r2 p.1 p.2) r
      else r),
    trace := s.trace ++ [.updateCall id patch] }

/-- `client.delete(collection, id)`: remove the record with that id. -/
def cDelete (s : ClientState) (id : Val) : ClientState :=
  { recs := s.recs.filter (fun r => !(getFieldJS r "id" == id)),
    trace := s.trace ++ [.deleteCall id] }

/-- Construction-time adapter configuration (`TriplitAdapterOptions` in
`src/types.ts`) together with the opaque client behaviours the wrapper
depends on: the `insert` response shape, the value an `update` call
resolves with, `new Date(x)` parsing, and the current time `new Date()`. -/
structure AdapterCtx where
  customCollectionName : Option (String → String)
  transformers : List (String × List (String × (Val → Val)))
  idFieldName : Option String
  idTransform : Option (Val → Val)
  insertResp : Rec → Rec
  updateResp : Option Rec
  parseDate : Val → Int
  now : Int

/-- `getCollectionName` from `src/transform.ts`: apply the configured
renaming function, defaulting to the table name itself. -/
def getCollectionName (ctx : AdapterCtx) (tableName : String) : String :=
  match ctx.customCollectionName with
  | some f => f tableName
  | none => tableName

/-- The operation argument of `transformInput`. -/
inductive TIOp where
  | create
  | update
  deriving DecidableEq, Repr

/-- The `Object.entries(modelTransformers).forEach` loop of `transformInput`:
apply each configured field transformer when the field is defined
(`!== undefined`). -/
def applyTransformers (ts : List (String × (Val → Val))) (d : Rec) : Rec :=
  ts.foldl (fun d2 ft =>
    match getField d2 ft.1 with
    | some .undefined => d2
    | some _ => setField d2 ft.1 (ft.2 (getFieldJS d2 ft.1))
    | none => d2) d

/-- `transformInput` from `src/transform.ts`: clone, apply per-model field
transformers, apply the id transform when the id value is truthy, then stamp
timestamps — on create, `createdAt`/`updatedAt` are set to the current time
when falsy (`if (!transformedData.createdAt)`); on update, `updatedAt` is
assigned the current time unconditionally. -/
def transformInput (ctx : AdapterCtx) (data : Rec) (model : String)
    (operation : TIOp) : Rec :=
  let transformedData := data
  let transformedData :=
    match (ctx.transformers.find? (fun p => p.1 = model)).map (fun p => p.2) with
    | some mts => applyTransformers mts transformedData
    | none => transformedData
  let idField := jsOr ctx.idFieldName "id"
  let transformedData :=
    match ctx.idTransform with
    | some tr =>
        if (getFieldJS transformedData idField).truthy then
          setField transformedData idField (tr (getFieldJS transformedData idField))
        else transformedData
    | none => transformedData
  let transformedData :=
    match operation with
    | .create =>
        let d1 :=
          if (getFieldJS transformedData "createdAt").truthy then transformedData
          else setField transformedData "createdAt" (.date ctx.now)
        if (getFieldJS d1 "updatedAt").truthy then d1
        else setField d1 "updatedAt" (.date ctx.now)
    | .update => transformedData
  match operation with
  | .update => setField transformedData "updatedAt" (.date ctx.now)
  | .create => transformedData

/-- `transformOutput` from `src/transform.ts`: clone, and coerce
`createdAt`/`updatedAt` to `Date` objects when present (truthy) and not
already dates.  (The `if (!data) return null` guard is handled at the call
sites, which only pass records.) -/
def transformOutput (ctx : AdapterCtx) (data : Rec) : Rec :=
  let d := data
  let d :=
    if (getFieldJS d "createdAt").truthy && !((getFieldJS d "createdAt").isDateObj)
    then setField d "createdAt" (.date (ctx.parseDate (getFieldJS d "createdAt")))
    else d
  if (getFieldJS d "updatedAt").truthy && !((getFieldJS d "updatedAt").isDateObj)
  then setField d "updatedAt" (.date (ctx.parseDate (getFieldJS d "updatedAt")))
  else d

/-- The `switch` body of `transformWhereOperators` in `src/transform.ts`. -/
def mapOpSwitch (op : String) : String :=
  match op with
  | "==" => "="
  | "not_in" => "not in"
  | _ => op

/-- The body of the `transformWhereOperators` loop in `src/transform.ts`:
`const newCondition = { ...condition }`, then the switch on a truthy
operator. -/
def cloneMapped (condition : WhereCond) : WhereCond :=
  match condition.operator with
  | some op =>
      if op = "" then condition
      else { condition with operator := some (mapOpSwitch op) }
  | none => condition

/-- `transformWhereOperators` from `src/transform.ts`: map each condition to
a clone whose operator, when truthy, has gone through the switch
(`"==" → "="`, `"not_in" → "not in"`, others unchanged).  A missing
operator is left missing here (the draft in `src/unnamed/part_001`
additionally defaults it, see `transformWhereOperatorsDefaulted`). -/
def transformWhereOperators (whereList : List WhereCond) : List WhereCond :=
  whereList.map cloneMapped

/-- The supported-operator list of `filterInvalidOperators` in
`src/transform.ts` (note the `not_in` / `notContains` spellings). -/
def supportedOperators : List String :=
  ["=", "==", "!=", ">", ">=", "<", "<=", "in", "not_in", "contains", "notContains"]

/-- `filterInvalidOperators` from `src/transform.ts`.  The source computes
`where.filter(...)` and assigns it back to the **local parameter** `where`;
a parameter rebinding is invisible to the caller, and nothing is returned
or thrown, so the function has no effect.  The discarded `let` mirrors
that dead computation. -/
def filterInvalidOperators (whereList : List WhereCond) : Unit :=
  let _ := whereList.filter (fun condition =>
    supportedOperators.contains (jsOr condition.operator "="))
  ()

/-- The where-clause processing every adapter verb performs
(`src/adapter.ts`): clone the incoming array, run `filterInvalidOperators`,
and take the result of `transformWhereOperators`.  (The adapter embedded in
`src/transform.ts` runs the two in the opposite order; the orders agree
because the validator is inert.) -/
def processWhere (whereList : List WhereCond) : List WhereCond :=
  let processedWhere := whereList
  let _ := filterInvalidOperators processedWhere
  transformWhereOperators processedWhere

/-- `transformWhereOperators` from the draft `src/unnamed/part_001`: as
`transformWhereOperators`, but additionally defaulting a missing (falsy)
operator to `"="` on the clone. -/
def transformWhereOperatorsDefaulted (whereList : List WhereCond) : List WhereCond :=
  whereList.map (fun condition =>
    let c1 := cloneMapped condition
    match c1.operator with
    | some op => if op = "" then { c1 with operator := some "=" } else c1
    | none => { c1 with operator := some "=" })

/-- The supported-operator list of the validating `filterInvalidOperators`
in `src/unnamed/part_001` (the store's actual tokens). -/
def supportedTriplitOperators : List String :=
  ["=", "!=", ">", ">=", "<", "<=", "in", "not in", "contains", "not contains"]

/-- `filterInvalidOperators` from the draft `src/unnamed/part_001`: walk the
mapped conditions and throw on the first operator outside the store's
supported set, naming the offending operator.  (`condition.operator!` on a
missing operator yields `undefined` in JS, modelled by the string
`"undefined"`.) -/
def filterInvalidOperatorsValidating : List WhereCond → Except String Unit
  | [] => .ok ()
  | condition :: rest =>
    let op := condition.operator.getD "undefined"
    if supportedTriplitOperators.contains op then
      filterInvalidOperatorsValidating rest
    else
      .error ("Triplit adapter query error: The operator \"" ++ op ++
        "\" used in the \x27where\x27 clause is not supported by Triplit\x27s \x27Where\x27 method.")

/-- `mapOperatorToTriplit`'s fixed table (`src/adapter.ts`). -/
def operatorMap : List (String × String) :=
  [("=", "="), ("==", "="), ("!=", "!="), (">", ">"), (">=", ">="),
   ("<", "<"), ("<=", "<="), ("in", "in"), ("not in", "not in"),
   ("not_in", "not in"), ("contains", "contains"), ("notContains", "not contains")]

/-- `mapOperatorToTriplit` from `src/adapter.ts`:
`operatorMap[operator] || "="` — the table entry, defaulting to `"="` when
the operator is not a key (or the entry is falsy, which none is). -/
def mapOperatorToTriplit (operator : String) : String :=
  match (operatorMap.find? (fun p => p.1 = operator)).map (fun p => p.2) with
  | some s => if s = "" then "=" else s
  | none => "="

/-- The condition-building block that each `db` case of `src/transform.ts`
repeats verbatim: default the operator to `"="` (`condition.operator || "="`),
rewrite `"=="` to `"="`, and emit the `(field, operator, value)` triple. -/
def buildConds (whereList : List WhereCond) : List (String × String × Val) :=
  whereList.map (fun condition =>
    let op := jsOr condition.operator "="
    let triplitOp := if op = "==" then "=" else op
    (condition.field, triplitOp, condition.value))

/-- `db` case `"insert"` of `src/transform.ts`: forward the values to
`client.insert` and return its result — no re-fetch happens here. -/
def db_insert (ctx : AdapterCtx) (s : ClientState) (values : Rec) :
    Rec × ClientState :=
  let result := cInsert ctx.insertResp s values
  result

/-- `db` case `"insert"` of the draft `src/unnamed/part_001`: insert, then
when the response carries a truthy id, re-fetch the record by that id;
otherwise fall back to the raw response. -/
def db_insert_refetch (ctx : AdapterCtx) (s : ClientState) (values : Rec) :
    Option Rec × ClientState :=
  let (result, s1) := cInsert ctx.insertResp s values
  if (getFieldJS result "id").truthy then
    cFetchById s1 (getFieldJS result "id")
  else (some result, s1)

/-- `insert` from `src/handler/triplit.ts`: insert, then unconditionally
fetch the inserted record by the id of the insert response and return it. -/
def handler_insert (ctx : AdapterCtx) (s : ClientState) (values : Rec) :
    Option Rec × ClientState :=
  let (result, s1) := cInsert ctx.insertResp s values
  cFetchById s1 (getFieldJS result "id")

/-- `db` case `"queryOne"` of `src/transform.ts`: build the query from the
conditions and `fetchOne` it. -/
def db_queryOne (s : ClientState) (whereList : List WhereCond) :
    Option Rec × ClientState :=
  cFetchOne s { conds := buildConds whereList, order := [], limit := none }

/-- `order.split(' ')` destructuring of the `db` query case. -/
def parseOrderStr (o : String) : String × String :=
  match o.splitOn " " with
  | f :: d :: _ => (f, d)
  | [f] => (f, "undefined")
  | [] => ("undefined", "undefined")

/-- `db` case `"query"` of `src/transform.ts`: when a pre-built query object
is passed, apply `limit`/`order` if truthy and fetch it; otherwise build the
query from the conditions, apply `limit`/`order` if truthy, and fetch. -/
def db_query (s : ClientState) (queryArg : Option Query)
    (whereList : List WhereCond) (limit : Option Nat) (order : Option String) :
    List Rec × ClientState :=
  match queryArg with
  | some q0 =>
    let q1 := match limit with
      | some n => if n ≠ 0 then { q0 with limit := some n } else q0
      | none => q0
    let q2 := match order with
      | some o => if o ≠ "" then { q1 with order := q1.order ++ [parseOrderStr o] } else q1
      | none => q1
    cFetch s q2
  | none =>
    let q0 : Query := { conds := buildConds whereList, order := [], limit := none }
    let q1 := match limit with
      | some n => if n ≠ 0 then { q0 with limit := some n } else q0
      | none => q0
    let q2 := match order with
      | some o => if o ≠ "" then { q1 with order := q1.order ++ [parseOrderStr o] } else q1
      | none => q1
    cFetch s q2

/-- `db` case `"update"` of `src/transform.ts`: with a truthy id, update by
id and return the client's resolution value; otherwise fetch the matching
entities, update the first one when any was found, and return `null` when
none was. -/
def db_update (ctx : AdapterCtx) (s : ClientState) (id : Val)
    (whereList : List WhereCond) (updatePatch : Rec) :
    Option Rec × ClientState :=
  if id.truthy then
    (ctx.updateResp, cUpdate s id updatePatch)
  else
    let (entitiesToUpdate, s1) :=
      cFetch s { conds := buildConds whereList, order := [], limit := none }
    if entitiesToUpdate.length > 0 then
      (ctx.updateResp,
       cUpdate s1 (getFieldJS (entitiesToUpdate.headD []) "id") updatePatch)
    else (none, s1)

/-- `db` case `"delete"` of `src/transform.ts`: with a truthy id, delete by
id and return `true`; with `deleteAll`, fetch the matching entities, delete
each one, and return their count; otherwise delete the first match and
return `true`, or `false` when nothing matched. -/
def db_delete (s : ClientState) (id : Val) (whereList : List WhereCond)
    (deleteAll : Bool) : Val × ClientState :=
  if id.truthy then
    (Val.bool true, cDelete s id)
  else if deleteAll then
    let (entitiesToDelete, s1) :=
      cFetch s { conds := buildConds whereList, order := [], limit := none }
    let s2 := entitiesToDelete.foldl (fun st e => cDelete st (getFieldJS e "id")) s1
    (Val.num entitiesToDelete.length, s2)
  else
    let (entitiesToDelete, s1) :=
      cFetch s { conds := buildConds whereList, order := [], limit := none }
    if entitiesToDelete.length > 0 then
      (Val.bool true, cDelete s1 (getFieldJS (entitiesToDelete.headD []) "id"))
    else (Val.bool false, s1)

/-- `db` case `"count"` of `src/transform.ts`: build the query from the
conditions (the `where.length > 0` guard is mirrored; an empty list adds no
conditions either way), fetch, and return the length of the results — the
store has no native count primitive. -/
def db_count (s : ClientState) (whereList : List WhereCond) :
    Nat × ClientState :=
  let q : Query :=
    { conds := if whereList.length > 0 then buildConds whereList else [],
      order := [], limit := none }
  let (results, s1) := cFetch s q
  (results.length, s1)

/-- The field-selection loop of `create`/`findOne` in `src/adapter.ts`:
`for (const key of select) if (key in res) result[key] = res[key]`. -/
def projectSelect (select : List String) (res : Rec) : Rec :=
  select.foldl (fun result key =>
    if hasField res key then setField result key (getFieldJS res key)
    else result) []

/-- The selection step of `create`/`findOne` in `src/adapter.ts`: the whole
record when no selection list was given, the projection otherwise. -/
def selectResult (select : List String) (res : Rec) : Rec :=
  if select.isEmpty then res else projectSelect select res

/-- `create` from `src/adapter.ts`: transform the input for create, run the
`db` insert, apply field selection to the response, and transform the
output. -/
def adapter_create (ctx : AdapterCtx) (s : ClientState) (model : String)
    (values : Rec) (select : List String) : Option Rec × ClientState :=
  let transformed := transformInput ctx values model .create
  let (res, s1) := db_insert ctx s transformed
  (some (transformOutput ctx (selectResult select res)), s1)

/-- `findOne` from `src/adapter.ts`: process the where clause, run the `db`
queryOne, and on a match apply field selection and output transformation;
on no match return `null`. -/
def adapter_findOne (ctx : AdapterCtx) (s : ClientState) (model : String)
    (whereList : List WhereCond) (select : List String) :
    Option Rec × ClientState :=
  let processedWhere := processWhere whereList
  let (res, s1) := db_queryOne s processedWhere
  match res with
  | some r => (some (transformOutput ctx (selectResult select r)), s1)
  | none => (none, s1)

/-- The `Where`-triple construction of `findMany` in `src/adapter.ts`:
`[field, mapOperatorToTriplit(operator || "="), value]` per processed
condition. -/
def findManyConds (processedWhere : List WhereCond) :
    List (String × String × Val) :=
  processedWhere.map (fun condition =>
    (condition.field, mapOperatorToTriplit (jsOr condition.operator "="),
     condition.value))

/-- `findMany` from `src/adapter.ts`: process the where clause, build the
Triplit query object (`Where` when conditions exist, `Order` from `sortBy`
with upper-cased direction, `Limit` when truthy), execute it through the
`db` query case, and transform each result.  The Better-Auth `offset`
parameter is ignored by the source and omitted here. -/
def adapter_findMany (ctx : AdapterCtx) (s : ClientState) (model : String)
    (whereList : List WhereCond) (limit : Option Nat)
    (sortBy : Option (String × String)) : List Rec × ClientState :=
  let processedWhere := processWhere whereList
  let q0 : Query := { conds := [], order := [], limit := none }
  let q1 :=
    if processedWhere.length > 0 then { q0 with conds := findManyConds processedWhere }
    else q0
  let q2 := match sortBy with
    | some sb => { q1 with order := [(sb.1, sb.2.toUpper)] }
    | none => q1
  let q3 := match limit with
    | some n => if n ≠ 0 then { q2 with limit := some n } else q2
    | none => q2
  let (results, s1) := db_query s (some q3) [] none none
  (results.map (fun x => transformOutput ctx x), s1)

/-- `update` from `src/adapter.ts`: process the where clause, transform the
patch for update, run the `db` update (find first match, update it), and
transform the result when one exists; `null` otherwise. -/
def adapter_update (ctx : AdapterCtx) (s : ClientState) (model : String)
    (whereList : List WhereCond) (updateVals : Rec) :
    Option Rec × ClientState :=
  let processedWhere := processWhere whereList
  let transformedUpdate := transformInput ctx updateVals model .update
  let (res, s1) := db_update ctx s .null processedWhere transformedUpdate
  match res with
  | some r => (some (transformOutput ctx r), s1)
  | none => (none, s1)

/-- `delete` from `src/adapter.ts`: process the where clause and run the
single-target `db` delete; the verb itself returns nothing. -/
def adapter_delete (ctx : AdapterCtx) (s : ClientState) (model : String)
    (whereList : List WhereCond) : ClientState :=
  let processedWhere := processWhere whereList
  (db_delete s .null processedWhere false).2

/-- `deleteMany` from `src/adapter.ts`: process the where clause and run the
`db` delete with the `deleteAll` flag, returning the deleted count. -/
def adapter_deleteMany (ctx : AdapterCtx) (s : ClientState) (model : String)
    (whereList : List WhereCond) : Val × ClientState :=
  let processedWhere := processWhere whereList
  db_delete s .null processedWhere true

/-- `count` from `src/adapter.ts`: process the where clause and run the `db`
count. -/
def adapter_count (ctx : AdapterCtx) (s : ClientState) (model : String)
    (whereList : List WhereCond) : Nat × ClientState :=
  let processedWhere := processWhere whereList
  db_count s processedWhere

/-- Recognizer for delete calls in a trace. -/
def isDeleteCall : StoreCall → Bool
  | .deleteCall _ => true
  | _ => false

/-- Recognizer for `fetchById` calls in a trace. -/
def isFetchByIdCall : StoreCall → Bool
  | .fetchById _ => true
  | _ => false

/-- A placeholder condition object for out-of-range heap reads. -/
def defaultCond : WhereCond :=
  { field := "", operator := none, value := .undefined, connector := none }

/-- A heap of JS condition objects, for the frame-property claim about the
where-clause processing: an address is an index into the allocation list,
and allocation appends.  Arrays of conditions are lists of addresses; the
source only ever rebinds array variables (`[...where]`, `where = where.filter`),
never writes through them, so array cells need no heap of their own. -/
structure CondHeap where
  conds : List WhereCond
  deriving DecidableEq, Repr

/-- Read the condition object at an address. -/
def heapRead (h : CondHeap) (a : Nat) : WhereCond :=
  h.conds.getD a defaultCond

/-- `transformWhereOperators` read as heap code: for each address in the
input array, read the object, allocate a fresh clone with the mapped
operator (`{ ...condition }` plus the switch), and collect the fresh
addresses.  No input cell is ever assigned. -/
def transformWhereOperatorsH : CondHeap → List Nat → CondHeap × List Nat
  | h, [] => (h, [])
  | h, a :: rest =>
    let newCondition := cloneMapped (heapRead h a)
    let h1 : CondHeap := { conds := h.conds ++ [newCondition] }
    let (h2, out) := transformWhereOperatorsH h1 rest
    (h2, h.conds.length :: out)

/-- `filterInvalidOperators` read as heap code: it reads the conditions,
computes a filtered list, and rebinds its local parameter — the heap is
untouched. -/
def filterInvalidOperatorsH (h : CondHeap) (arr : List Nat) : CondHeap :=
  let _ := (arr.map (heapRead h)).filter (fun condition =>
    supportedOperators.contains (jsOr condition.operator "="))
  h

/-- The adapter's where-clause processing read as heap code
(`src/adapter.ts`): copy the caller's address list into a fresh array
(`[...where]`), run the validator, and map the operators. -/
def processWhereH (h : CondHeap) (arr : List Nat) : CondHeap × List Nat :=
  let processedWhere := arr
  let h1 := filterInvalidOperatorsH h processedWhere
  transformWhereOperatorsH h1 processedWhere

/-- A concrete default context: no configured transformers, identity insert
response, epoch zero clock. -/
def ctx0 : AdapterCtx :=
  { customCollectionName := none, transformers := [], idFieldName := none,
    idTransform := none, insertResp := fun values => values, updateResp := none,
    parseDate := fun _ => 0, now := 0 }

/-- A context whose store resolves `insert` with only the id of the new
record — a partial create response. -/
def ctxPartialInsert : AdapterCtx :=
  { ctx0 with insertResp := fun values => [("id", getFieldJS values "id")] }


theorem getField_cons (p : String × Val) (rest : Rec) (k : String) :
    getField (p :: rest) k = if p.1 = k then some p.2 else getField rest k := by
  by_cases h : p.1 = k
  · simp [getField, List.find?_cons_of_pos, h]
  · simp [getField, List.find?_cons_of_neg, h]

theorem hasField_cons (p : String × Val) (rest : Rec) (k : String) :
    hasField (p :: rest) k = (decide (p.1 = k) || hasField rest k) := by
  unfold hasField
  rw [getField_cons]
  by_cases h : p.1 = k <;> simp [h]

theorem getField_append_of_none {r1 r2 : Rec} {k : String}
    (h : getField r1 k = none) : getField (r1 ++ r2) k = getField r2 k := by
  induction r1 with
  | nil => simp [getField]
  | cons p rest ih =>
    rw [getField_cons] at h
    by_cases hp : p.1 = k
    · rw [if_pos hp] at h
      exact absurd h (by simp)
    · rw [if_neg hp] at h
      show getField (p :: (rest ++ r2)) k = getField r2 k
      rw [getField_cons, if_neg hp]
      exact ih h

theorem getField_append_of_some {r1 r2 : Rec} {k : String} {v : Val}
    (h : getField r1 k = some v) : getField (r1 ++ r2) k = some v := by
  induction r1 with
  | nil => simp [getField] at h
  | cons p rest ih =>
    rw [getField_cons] at h
    show getField (p :: (rest ++ r2)) k = some v
    rw [getField_cons]
    by_cases hp : p.1 = k
    · rwa [if_pos hp] at h ⊢
    · rw [if_neg hp] at h ⊢
      exact ih h

theorem getField_replace (r : Rec) (k k' : String) (v : Val) :
    getField (r.map (fun p => if p.1 = k then (k, v) else p)) k' =
      if k' = k then (if hasField r k then some v else none)
      else getField r k' := by
  induction r with
  | nil => simp [getField, hasField]
  | cons p rest ih =>
    simp only [List.map_cons]
    by_cases hp : p.1 = k
    · rw [if_pos hp, getField_cons, getField_cons, hasField_cons]
      by_cases hk : k' = k
      · subst hk
        simp [hp]
      · have hne : ¬ ((k, v).1 = k') := fun he => hk (by simpa using he.symm)
        have hpne : ¬ (p.1 = k') := fun he => hk (by rw [← he, hp])
        simp [hne, hpne, ih, hk]
    · rw [if_neg hp, getField_cons, getField_cons, hasField_cons]
      by_cases hk : k' = k
      · subst hk
        have hpne : ¬ (p.1 = k') := hp
        simp [hpne, ih, hp]
      · by_cases hq : p.1 = k'
        · simp [hq, hk]
        · simp [hq, ih, hk]

theorem getField_setField_self (r : Rec) (k : String) (v : Val) :
    getField (setField r k v) k = some v := by
  unfold setField
  by_cases hf : hasField r k
  · rw [if_pos hf, getField_replace, if_pos rfl, if_pos hf]
  · rw [if_neg hf]
    have hn : getField r k = none := by
      unfold hasField at hf
      cases hg : getField r k with
      | none => rfl
      | some w => rw [hg] at hf; simp at hf
    rw [getField_append_of_none hn, getField_cons]
    simp

theorem getField_setField_ne (r : Rec) (k k' : String) (v : Val)
    (h : k' ≠ k) : getField (setField r k v) k' = getField r k' := by
  unfold setField
  by_cases hf : hasField r k
  · rw [if_pos hf, getField_replace, if_neg h]
  · rw [if_neg hf]
    cases hg : getField r k' with
    | some w => exact getField_append_of_some hg
    | none =>
      rw [getField_append_of_none hg, getField_cons]
      have : ¬ ((k, v).1 = k') := fun he => h (by simpa using he.symm)
      rw [if_neg this]
      simp [getField]

theorem hasField_setField (r : Rec) (k k' : String) (v : Val) :
    hasField (setField r k v) k' = (decide (k' = k) || hasField r k') := by
  by_cases h : k' = k
  · subst h
    simp [hasField, getField_setField_self]
  · simp [hasField, getField_setField_ne r k k' v h, h]

theorem hasField_of_truthy {r : Rec} {k : String}
    (h : (getFieldJS r k).truthy = true) : hasField r k = true := by
  unfold getFieldJS at h
  unfold hasField
  cases hg : getField r k with
  | none => rw [hg] at h; simp [Option.getD, Val.truthy] at h
  | some v => simp

/-- C1: the spec promises that where-clause processing fails with an
`UnsupportedOperator` error for a condition whose mapped operator is outside
the supported set, and that no store call is issued.  The shipped pipeline
(`transformWhereOperators` + the inert `filterInvalidOperators` of
`src/transform.ts`) does neither: at the failing input
`[{field: "name", operator: "like", value: "a"}]` the condition survives
processing unchanged, `findOne` issues the `fetchOne` store call carrying
the unsupported operator `"like"`, and the repository's own validating
draft (`src/unnamed/part_001`), which implements the documented behaviour,
rejects exactly this input naming the offending operator. -/
theorem C1_unsupported_operator_not_rejected :
    processWhere [⟨"name", some "like", Val.str "a", none⟩] =
      [⟨"name", some "like", Val.str "a", none⟩] ∧
    (adapter_findOne ctx0 { recs := [], trace := [] } "user"
        [⟨"name", some "like", Val.str "a", none⟩] []).2.trace =
      [.fetchOne { conds := [("name", "like", Val.str "a")], order := [], limit := none }] ∧
    filterInvalidOperatorsValidating
        (transformWhereOperators [⟨"name", some "like", Val.str "a", none⟩]) =
      .error ("Triplit adapter query error: The operator \"like\" used in the \x27where\x27 clause is not supported by Triplit\x27s \x27Where\x27 method.") :=
  ⟨rfl, rfl, rfl⟩

/-- C2, counterexample: the spec's abstract not-in spelling `"notIn"` is not
a key of `mapOperatorToTriplit`'s table, so a condition carrying it is
translated to the default `"="` — an equality comparison — rather than to
`"not in"` as the claim states. -/
theorem C2_counterexample_notIn_becomes_equality :
    findManyConds (processWhere [⟨"role", some "notIn", Val.str "admin", none⟩]) =
      [("role", "=", Val.str "admin")] ∧
    mapOperatorToTriplit "notIn" = "=" ∧
    mapOperatorToTriplit "notIn" ≠ "not in" :=
  ⟨rfl, rfl, by decide⟩

/-- C2, amended: for every condition, the operator that `findMany` sends to
the store is the fixed-table image of the condition's operator, with `"="`
as the default for an omitted operator: `"="`/`"=="`/omitted map to `"="`,
the code's not-in spellings `"not_in"`/`"not in"` map to `"not in"`
(the camelCase `"notIn"` is not in the table and falls to the default, see
the counterexample), `"notContains"` maps to `"not contains"`, and the
relational operators and `"!="`/`"in"`/`"contains"` pass through
unchanged. -/
theorem C2_operator_translation_table (f : String) (v : Val) (conn : Option String) :
    findManyConds (processWhere [⟨f, none, v, conn⟩]) = [(f, "=", v)] ∧
    findManyConds (processWhere [⟨f, some "=", v, conn⟩]) = [(f, "=", v)] ∧
    findManyConds (processWhere [⟨f, some "==", v, conn⟩]) = [(f, "=", v)] ∧
    findManyConds (processWhere [⟨f, some "not_in", v, conn⟩]) = [(f, "not in", v)] ∧
    findManyConds (processWhere [⟨f, some "not in", v, conn⟩]) = [(f, "not in", v)] ∧
    findManyConds (processWhere [⟨f, some "!=", v, conn⟩]) = [(f, "!=", v)] ∧
    findManyConds (processWhere [⟨f, some ">", v, conn⟩]) = [(f, ">", v)] ∧
    findManyConds (processWhere [⟨f, some ">=", v, conn⟩]) = [(f, ">=", v)] ∧
    findManyConds (processWhere [⟨f, some "<", v, conn⟩]) = [(f, "<", v)] ∧
    findManyConds (processWhere [⟨f, some "<=", v, conn⟩]) = [(f, "<=", v)] ∧
    findManyConds (processWhere [⟨f, some "in", v, conn⟩]) = [(f, "in", v)] ∧
    findManyConds (processWhere [⟨f, some "contains", v, conn⟩]) = [(f, "contains", v)] ∧
    findManyConds (processWhere [⟨f, some "notContains", v, conn⟩]) = [(f, "not contains", v)] :=
  ⟨rfl, rfl, rfl, rfl, rfl, rfl, rfl, rfl, rfl, rfl, rfl, rfl, rfl⟩

/-- C2, witness: the table theorem applied at a concrete condition. -/
theorem C2_witness :
    findManyConds (processWhere [⟨"email", none, Val.str "x", none⟩]) =
      [("email", "=", Val.str "x")] ∧
    findManyConds (processWhere [⟨"email", some "not_in", Val.str "x", none⟩]) =
      [("email", "not in", Val.str "x")] :=
  ⟨(C2_operator_translation_table "email" (Val.str "x") none).1,
   (C2_operator_translation_table "email" (Val.str "x") none).2.2.2.1⟩

/-- C7, counterexample: a caller-supplied `createdAt` that is present but
JS-falsy (here the number `0`) is overwritten by `transformInput` on
create, so the stamping is not "exactly when absent". -/
theorem C7_counterexample_falsy_createdAt_overwritten :
    hasField [("createdAt", Val.num 0)] "createdAt" = true ∧
    getField (transformInput { ctx0 with now := 111 }
        [("createdAt", Val.num 0)] "user" .create) "createdAt" =
      some (Val.date 111) ∧
    Val.num 0 ≠ Val.date 111 :=
  ⟨rfl, rfl, by decide⟩

/-- C3, counterexample: with a store whose create call resolves with only
the id of the new record, the adapter's `create` (which runs through the
`db` insert of `src/transform.ts`) returns that partial response — the
stored record holds the inserted email, the returned record does not, and
no `fetchById` call appears in the trace. -/
theorem C3_counterexample_create_returns_partial_response :
    (adapter_create ctxPartialInsert { recs := [], trace := [] } "user"
        [("id", Val.str "u1"), ("email", Val.str "a@b.com")] []).1 =
      some [("id", Val.str "u1")] ∧
    getField ((adapter_create ctxPartialInsert { recs := [], trace := [] } "user"
        [("id", Val.str "u1"), ("email", Val.str "a@b.com")] []).2.recs.headD [])
        "email" = some (Val.str "a@b.com") ∧
    ((adapter_create ctxPartialInsert { recs := [], trace := [] } "user"
        [("id", Val.str "u1"), ("email", Val.str "a@b.com")] []).2.trace.all
        (fun c => !(isFetchByIdCall c))) = true :=
  ⟨rfl, rfl, rfl⟩

theorem getFieldJS_setField_ne (r : Rec) (k k' : String) (v : Val)
    (h : k' ≠ k) : getFieldJS (setField r k v) k' = getFieldJS r k' := by
  unfold getFieldJS
  rw [getField_setField_ne r k k' v h]

theorem mapOpSwitch_eq_self {op : String} (h1 : op ≠ "==") (h2 : op ≠ "not_in") :
    mapOpSwitch op = op := by
  unfold mapOpSwitch
  split <;> simp_all

/-- C10: an operator string that is not a key of `mapOperatorToTriplit`'s
table is mapped to `"="`; `findMany` therefore issues the store fetch with
an equality comparison in place of the unrecognized operator and returns
the store's answer to that equality query — no rejection happens. -/
theorem C10_unknown_operator_forwarded_as_equality
    (op : String) (hop : operatorMap.find? (fun p => p.1 = op) = none)
    (ctx : AdapterCtx) (s : ClientState) (model f : String) (v : Val)
    (conn : Option String) :
    mapOperatorToTriplit op = "=" ∧
    (adapter_findMany ctx s model [⟨f, some op, v, conn⟩] none none).2.trace =
      s.trace ++ [.fetch { conds := [(f, "=", v)], order := [], limit := none }] ∧
    (adapter_findMany ctx s model [⟨f, some op, v, conn⟩] none none).1 =
      (s.recs.filter (fun r => matchesConds [(f, "=", v)] r)).map
        (fun x => transformOutput ctx x) := by
  have hmap : mapOperatorToTriplit op = "=" := by
    unfold mapOperatorToTriplit
    rw [hop]
    rfl
  have hne1 : op ≠ "==" := by
    intro he
    rw [he] at hop
    simp [operatorMap] at hop
  have hne2 : op ≠ "not_in" := by
    intro he
    rw [he] at hop
    simp [operatorMap] at hop
  have hconds : findManyConds (processWhere [⟨f, some op, v, conn⟩]) = [(f, "=", v)] := by
    by_cases h0 : op = ""
    · subst h0
      simp [findManyConds, processWhere, transformWhereOperators, cloneMapped,
        filterInvalidOperators, jsOr, mapOperatorToTriplit, operatorMap]
    · simp only [processWhere, transformWhereOperators, filterInvalidOperators,
        List.map_cons, List.map_nil, cloneMapped]
      rw [if_neg h0, mapOpSwitch_eq_self hne1 hne2]
      simp only [findManyConds, List.map_cons, List.map_nil, jsOr]
      rw [if_neg h0, hmap]
  have hlen : (processWhere [⟨f, some op, v, conn⟩]).length = 1 := by
    simp [processWhere, transformWhereOperators, filterInvalidOperators]
  refine ⟨hmap, ?_, ?_⟩ <;>
    simp [adapter_findMany, db_query, cFetch, runQuery, applyLimit, hconds, hlen]

/-- C10, witness: the theorem at the concrete unrecognized operator
`"like"`. -/
theorem C10_witness :
    mapOperatorToTriplit "like" = "=" ∧
    (adapter_findMany ctx0 { recs := [], trace := [] } "user"
        [⟨"age", some "like", Val.num 3, none⟩] none none).2.trace =
      [.fetch { conds := [("age", "=", Val.num 3)], order := [], limit := none }] ∧
    (adapter_findMany ctx0 { recs := [], trace := [] } "user"
        [⟨"age", some "like", Val.num 3, none⟩] none none).1 = [] := by
  have h := C10_unknown_operator_forwarded_as_equality "like" (by decide)
    ctx0 { recs := [], trace := [] } "user" "age" (Val.num 3) none
  exact ⟨h.1, h.2.1, h.2.2⟩

/-- C7, amended: on create, `transformInput` stamps `createdAt`/`updatedAt`
with the current time exactly when the caller's value is JS-falsy (absent,
`null`, `undefined`, `0`, `""`, `false`), leaving truthy caller values —
in particular every `Date` value — intact; on update, it overwrites
`updatedAt` with the current time unconditionally.  (Stated for a
configuration without field transformers or id transform for the model.) -/
theorem C7_timestamp_stamping
    (ctx : AdapterCtx) (data : Rec) (model : String)
    (hnt : ctx.transformers.find? (fun p => p.1 = model) = none)
    (hid : ctx.idTransform = none) :
    ((getFieldJS data "createdAt").truthy = true →
       getField (transformInput ctx data model .create) "createdAt" =
         getField data "createdAt") ∧
    ((getFieldJS data "createdAt").truthy = false →
       getField (transformInput ctx data model .create) "createdAt" =
         some (Val.date ctx.now)) ∧
    ((getFieldJS data "updatedAt").truthy = true →
       getField (transformInput ctx data model .create) "updatedAt" =
         getField data "updatedAt") ∧
    ((getFieldJS data "updatedAt").truthy = false →
       getField (transformInput ctx data model .create) "updatedAt" =
         some (Val.date ctx.now)) ∧
    getField (transformInput ctx data model .update) "updatedAt" =
      some (Val.date ctx.now) := by
  have hcu : ("updatedAt" : String) ≠ "createdAt" := by decide
  have huc : ("createdAt" : String) ≠ "updatedAt" := by decide
  simp only [transformInput, hnt, hid, Option.map_none']
  refine ⟨?_, ?_, ?_, ?_, ?_⟩
  · intro ht
    rw [if_pos ht]
    by_cases hu : (getFieldJS data "updatedAt").truthy = true
    · rw [if_pos hu]
    · rw [if_neg hu]
      exact getField_setField_ne data "updatedAt" "createdAt" _ huc
  · intro ht
    have hc : ¬ (getFieldJS data "createdAt").truthy = true := by simp [ht]
    rw [if_neg hc,
      getFieldJS_setField_ne data "createdAt" "updatedAt" (Val.date ctx.now) hcu]
    by_cases hu : (getFieldJS data "updatedAt").truthy = true
    · rw [if_pos hu]
      exact getField_setField_self data "createdAt" _
    · rw [if_neg hu,
        getField_setField_ne _ "updatedAt" "createdAt" _ huc]
      exact getField_setField_self data "createdAt" _
  · intro ht
    by_cases hc : (getFieldJS data "createdAt").truthy = true
    · rw [if_pos hc, if_pos ht]
    · rw [if_neg hc,
        getFieldJS_setField_ne data "createdAt" "updatedAt" (Val.date ctx.now) hcu,
        if_pos ht]
      exact getField_setField_ne data "createdAt" "updatedAt" _ hcu
  · intro ht
    have hu : ¬ (getFieldJS data "updatedAt").truthy = true := by simp [ht]
    by_cases hc : (getFieldJS data "createdAt").truthy = true
    · rw [if_pos hc, if_neg hu]
      exact getField_setField_self data "updatedAt" _
    · rw [if_neg hc,
        getFieldJS_setField_ne data "createdAt" "updatedAt" (Val.date ctx.now) hcu,
        if_neg hu]
      exact getField_setField_self _ "updatedAt" _
  · exact getField_setField_self data "updatedAt" _

/-- C7, witness: a truthy (`Date`) `createdAt` survives create, and an
update patch gets the clock value as `updatedAt`. -/
theorem C7_witness :
    getField (transformInput ctx0 [("createdAt", Val.date 5)] "user" .create)
      "createdAt" = some (Val.date 5) ∧
    getField (transformInput ctx0 [("updatedAt", Val.date 7)] "user" .update)
      "updatedAt" = some (Val.date 0) :=
  ⟨(C7_timestamp_stamping ctx0 [("createdAt", Val.date 5)] "user" rfl rfl).1 (by decide),
   (C7_timestamp_stamping ctx0 [("updatedAt", Val.date 7)] "user" rfl rfl).2.2.2.2⟩

/-- C4: when the processed filters match no record in the store, every
by-filter operation resolves with its not-found sentinel and no error:
`findOne` returns `null`, `update` by filter returns `null`, the single
delete returns `false`, and `deleteMany` returns the count `0`. -/
theorem C4_no_match_returns_sentinels
    (ctx : AdapterCtx) (s : ClientState) (model : String)
    (whereList : List WhereCond) (select : List String) (patch : Rec)
    (hnm : s.recs.filter
        (fun r => matchesConds (buildConds (processWhere whereList)) r) = []) :
    (adapter_findOne ctx s model whereList select).1 = none ∧
    (adapter_update ctx s model whereList patch).1 = none ∧
    (db_delete s .null (processWhere whereList) false).1 = Val.bool false ∧
    (adapter_deleteMany ctx s model whereList).1 = Val.num 0 := by
  refine ⟨?_, ?_, ?_, ?_⟩
  · simp [adapter_findOne, db_queryOne, cFetchOne, hnm]
  · simp [adapter_update, db_update, db_query, cFetch, runQuery, applyLimit,
      Val.truthy, hnm]
  · simp [db_delete, cFetch, runQuery, applyLimit, Val.truthy, hnm]
  · simp [adapter_deleteMany, db_delete, cFetch, runQuery, applyLimit,
      Val.truthy, hnm]

/-- C4, witness: the sentinel theorem at an empty store. -/
theorem C4_witness :
    (adapter_findOne ctx0 { recs := [], trace := [] } "user"
        [⟨"email", none, Val.str "x", none⟩] []).1 = none ∧
    (adapter_update ctx0 { recs := [], trace := [] } "user"
        [⟨"email", none, Val.str "x", none⟩] []).1 = none ∧
    (db_delete { recs := [], trace := [] } .null
        (processWhere [⟨"email", none, Val.str "x", none⟩]) false).1 = Val.bool false ∧
    (adapter_deleteMany ctx0 { recs := [], trace := [] } "user"
        [⟨"email", none, Val.str "x", none⟩]).1 = Val.num 0 :=
  C4_no_match_returns_sentinels ctx0 { recs := [], trace := [] } "user"
    [⟨"email", none, Val.str "x", none⟩] [] [] rfl

theorem buildConds_eq_findManyConds (pw : List WhereCond)
    (hfix : ∀ c ∈ pw,
      mapOperatorToTriplit (jsOr c.operator "=") = jsOr c.operator "=") :
    buildConds pw = findManyConds pw := by
  unfold buildConds findManyConds
  apply List.map_congr_left
  intro c hc
  have h := hfix c hc
  by_cases he : jsOr c.operator "=" = "=="
  · rw [he] at h
    exact absurd h (by decide)
  · simp [he, h]

/-- C5, counterexample: `findMany` translates operators through
`mapOperatorToTriplit` but the `db` count case forwards them verbatim, so
the two verbs send different operator tokens for the spelling
`"notContains"`: `count` ships `"notContains"` (which the store does not
recognize) while `findMany` ships `"not contains"` — at this store
`count` answers `0` while `findMany` returns one record. -/
theorem C5_counterexample_notContains_diverges :
    (adapter_count ctx0
        { recs := [[("id", Val.str "r1"), ("name", Val.str "bob")]], trace := [] }
        "user" [⟨"name", some "notContains", Val.str "x", none⟩]).1 ≠
      (adapter_findMany ctx0
        { recs := [[("id", Val.str "r1"), ("name", Val.str "bob")]], trace := [] }
        "user" [⟨"name", some "notContains", Val.str "x", none⟩] none none).1.length ∧
    (adapter_count ctx0
        { recs := [[("id", Val.str "r1"), ("name", Val.str "bob")]], trace := [] }
        "user" [⟨"name", some "notContains", Val.str "x", none⟩]).1 = 0 ∧
    (adapter_findMany ctx0
        { recs := [[("id", Val.str "r1"), ("name", Val.str "bob")]], trace := [] }
        "user" [⟨"name", some "notContains", Val.str "x", none⟩] none none).1.length = 1 ∧
    buildConds (processWhere [⟨"name", some "notContains", Val.str "x", none⟩]) ≠
      findManyConds (processWhere [⟨"name", some "notContains", Val.str "x", none⟩]) :=
  ⟨by decide, rfl, rfl, by decide⟩

/-- C5, amended: for every filter set whose defaulted operators (after the
where-clause processing) are fixed points of `mapOperatorToTriplit` — which
covers every operator token the store supports — `count(filters)` equals
the length of `findMany(filters, no limit)`: the count verb materializes
the matching records and takes the length, since the store has no native
count primitive.  (Without the fixed-point condition the two verbs can send
different operator tokens, see the counterexample.) -/
theorem C5_count_is_findMany_length
    (ctx : AdapterCtx) (s : ClientState) (model : String)
    (whereList : List WhereCond)
    (hfix : ∀ c ∈ processWhere whereList,
      mapOperatorToTriplit (jsOr c.operator "=") = jsOr c.operator "=") :
    (adapter_count ctx s model whereList).1 =
      (adapter_findMany ctx s model whereList none none).1.length := by
  have hbc := buildConds_eq_findManyConds _ hfix
  simp only [adapter_count, adapter_findMany, db_count, db_query, cFetch,
    runQuery, applyLimit, List.length_map]
  by_cases hlen : 0 < (processWhere whereList).length
  · simp only [if_pos hlen, hbc]
  · simp only [if_neg hlen]

/-- C5, witness: the amended theorem at a supported-operator filter over a
two-record store. -/
theorem C5_witness :
    (adapter_count ctx0
        { recs := [[("id", Val.str "a"), ("age", Val.num 3)],
                   [("id", Val.str "b"), ("age", Val.num 9)]], trace := [] }
        "user" [⟨"age", some ">", Val.num 5, none⟩]).1 =
      (adapter_findMany ctx0
        { recs := [[("id", Val.str "a"), ("age", Val.num 3)],
                   [("id", Val.str "b"), ("age", Val.num 9)]], trace := [] }
        "user" [⟨"age", some ">", Val.num 5, none⟩] none none).1.length :=
  C5_count_is_findMany_length ctx0
    { recs := [[("id", Val.str "a"), ("age", Val.num 3)],
               [("id", Val.str "b"), ("age", Val.num 9)]], trace := [] }
    "user" [⟨"age", some ">", Val.num 5, none⟩] (by decide)

theorem find?_append_of_forall_false {α : Type} {l1 l2 : List α} {p : α → Bool}
    (h : ∀ x ∈ l1, p x = false) : (l1 ++ l2).find? p = l2.find? p := by
  rw [List.find?_append]
  have h1 : l1.find? p = none :=
    List.find?_eq_none.mpr (fun x hx => by simp [h x hx])
  rw [h1]
  rfl

/-- C3, amended: the insert paths that re-fetch do exist — `insert` in
`src/handler/triplit.ts` and the `db` insert of the draft
`src/unnamed/part_001` both re-fetch the created record by the id of the
create response and return the fully materialized stored record — but the
adapter's own `db` insert (`src/transform.ts`, used by `create` in
`src/adapter.ts`) returns the store's create response as-is, without a
re-fetch (see the counterexample). -/
theorem C3_handler_insert_refetches
    (ctx : AdapterCtx) (s : ClientState) (values : Rec)
    (hid : getFieldJS (ctx.insertResp values) "id" = getFieldJS values "id")
    (hfresh : ∀ r ∈ s.recs, (getFieldJS r "id" == getFieldJS values "id") = false) :
    (handler_insert ctx s values).1 = some values ∧
    (db_insert_refetch ctx s values).1 =
      (if (getFieldJS values "id").truthy then some values
       else some (ctx.insertResp values)) ∧
    (handler_insert ctx s values).2.trace =
      s.trace ++ [.insertCall values, .fetchById (getFieldJS values "id")] ∧
    (db_insert ctx s values).1 = ctx.insertResp values := by
  have hone : List.find?
      (fun r => getFieldJS r "id" == getFieldJS values "id") [values] =
      some values := by
    have hp : (getFieldJS values "id" == getFieldJS values "id") = true := by simp
    simp [List.find?, hp]
  have hfind : (s.recs ++ [values]).find?
      (fun r => getFieldJS r "id" == getFieldJS values "id") = some values := by
    rw [find?_append_of_forall_false hfresh]
    exact hone
  refine ⟨?_, ?_, ?_, rfl⟩
  · simp only [handler_insert, cInsert, cFetchById, hid]
    exact hfind
  · by_cases ht : (getFieldJS values "id").truthy = true
    · rw [if_pos ht]
      simp only [db_insert_refetch, cInsert, hid]
      rw [if_pos ht]
      simp only [cFetchById]
      exact hfind
    · rw [if_neg ht]
      simp only [db_insert_refetch, cInsert, hid]
      rw [if_neg ht]
  · simp [handler_insert, cInsert, cFetchById, hid]

/-- C3, witness: the re-fetch theorem at a concrete insert into an empty
store. -/
theorem C3_witness :
    (handler_insert ctx0 { recs := [], trace := [] }
        [("id", Val.str "u1"), ("email", Val.str "a@b.com")]).1 =
      some [("id", Val.str "u1"), ("email", Val.str "a@b.com")] ∧
    (handler_insert ctx0 { recs := [], trace := [] }
        [("id", Val.str "u1"), ("email", Val.str "a@b.com")]).2.trace =
      [.insertCall [("id", Val.str "u1"), ("email", Val.str "a@b.com")],
       .fetchById (Val.str "u1")] :=
  ⟨(C3_handler_insert_refetches ctx0 { recs := [], trace := [] }
      [("id", Val.str "u1"), ("email", Val.str "a@b.com")] rfl
      (by intro r hr; simp at hr)).1,
   (C3_handler_insert_refetches ctx0 { recs := [], trace := [] }
      [("id", Val.str "u1"), ("email", Val.str "a@b.com")] rfl
      (by intro r hr; simp at hr)).2.2.1⟩

theorem foldl_cDelete_trace (l : List Rec) (s : ClientState) :
    (l.foldl (fun st e => cDelete st (getFieldJS e "id")) s).trace =
      s.trace ++ l.map (fun e => StoreCall.deleteCall (getFieldJS e "id")) := by
  induction l generalizing s with
  | nil => simp
  | cons e rest ih =>
    simp only [List.foldl_cons, List.map_cons]
    rw [ih]
    simp [cDelete, List.append_assoc]

theorem foldl_cDelete_recs (l : List Rec) (s : ClientState) :
    (l.foldl (fun st e => cDelete st (getFieldJS e "id")) s).recs =
      s.recs.filter (fun r =>
        l.all (fun e => !(getFieldJS r "id" == getFieldJS e "id"))) := by
  induction l generalizing s with
  | nil => simp
  | cons e rest ih =>
    simp only [List.foldl_cons]
    rw [ih]
    simp only [cDelete]
    rw [List.filter_filter]
    apply List.filter_congr
    intro r hr
    simp [Bool.and_comm]

/-- C6: `deleteMany` fetches the set of records matching the processed
filters, issues exactly one store delete call per matched record (the trace
grows by the fetch plus one delete per match), returns the count of the
matches, and leaves the store holding exactly the non-matching records —
so a `findMany` with the same filters afterwards returns the empty
sequence.  Hypotheses: the store's records carry pairwise-distinct ids
(the store's own invariant), and the filters' defaulted operators are
fixed points of `mapOperatorToTriplit` (true of every store-supported
token; without it `findMany` would send different operator tokens, see
the C5 counterexample). -/
theorem C6_deleteMany_deletes_each_match
    (ctx : AdapterCtx) (s : ClientState) (model : String)
    (whereList : List WhereCond)
    (hids : (s.recs.map (fun r => getFieldJS r "id")).Nodup)
    (hfix : ∀ c ∈ processWhere whereList,
      mapOperatorToTriplit (jsOr c.operator "=") = jsOr c.operator "=") :
    (adapter_deleteMany ctx s model whereList).1 =
      Val.num (s.recs.filter (fun r =>
        matchesConds (buildConds (processWhere whereList)) r)).length ∧
    (adapter_deleteMany ctx s model whereList).2.trace =
      (s.trace ++ [.fetch (Query.mk (buildConds (processWhere whereList)) [] none)]) ++
        (s.recs.filter (fun r =>
          matchesConds (buildConds (processWhere whereList)) r)).map
          (fun e => StoreCall.deleteCall (getFieldJS e "id")) ∧
    (adapter_deleteMany ctx s model whereList).2.recs =
      s.recs.filter (fun r =>
        !(matchesConds (buildConds (processWhere whereList)) r)) ∧
    (adapter_findMany ctx (adapter_deleteMany ctx s model whereList).2
        model whereList none none).1 = [] := by
  have key : adapter_deleteMany ctx s model whereList =
      (Val.num (s.recs.filter (fun r =>
          matchesConds (buildConds (processWhere whereList)) r)).length,
       (s.recs.filter (fun r =>
          matchesConds (buildConds (processWhere whereList)) r)).foldl
         (fun st e => cDelete st (getFieldJS e "id"))
         (ClientState.mk s.recs
           (s.trace ++ [.fetch (Query.mk (buildConds (processWhere whereList)) [] none)]))) :=
    rfl
  have h3 : (adapter_deleteMany ctx s model whereList).2.recs =
      s.recs.filter (fun r =>
        !(matchesConds (buildConds (processWhere whereList)) r)) := by
    rw [key]
    refine (foldl_cDelete_recs _ _).trans ?_
    apply List.filter_congr
    intro r hr
    by_cases hm : matchesConds (buildConds (processWhere whereList)) r = true
    · have hrm : r ∈ s.recs.filter (fun r =>
          matchesConds (buildConds (processWhere whereList)) r) :=
        List.mem_filter.mpr ⟨hr, hm⟩
      have hall : (s.recs.filter (fun r =>
          matchesConds (buildConds (processWhere whereList)) r)).all
          (fun e => !(getFieldJS r "id" == getFieldJS e "id")) = false :=
        List.all_eq_false.mpr ⟨r, hrm, by simp⟩
      rw [hall, hm]
      rfl
    · have hm' : matchesConds (buildConds (processWhere whereList)) r = false := by
        simpa using hm
      rw [hm']
      refine (List.all_eq_true.mpr ?_).trans rfl
      intro e he
      have hein := List.mem_filter.mp he
      by_cases hideq : getFieldJS r "id" = getFieldJS e "id"
      · exfalso
        have : r = e := List.inj_on_of_nodup_map hids hr hein.1 hideq
        rw [← this] at hein
        rw [hm'] at hein
        exact absurd hein.2 (by simp)
      · simp [hideq]
  refine ⟨by rw [key], ?_, h3, ?_⟩
  · rw [key]
    exact foldl_cDelete_trace _ _
  · by_cases hlen : 0 < (processWhere whereList).length
    · have hbc := buildConds_eq_findManyConds _ hfix
      simp only [adapter_findMany, db_query, cFetch, runQuery, applyLimit,
        if_pos hlen, List.map_eq_nil]
      rw [← hbc, h3, List.filter_filter]
      apply List.eq_nil_of_length_eq_zero
      rw [List.length_eq_zero]
      rw [show (fun a => matchesConds (buildConds (processWhere whereList)) a &&
          !(matchesConds (buildConds (processWhere whereList)) a)) =
          (fun _ : Rec => false) from funext (fun a => Bool.and_not_self _)]
      exact List.filter_false s.recs
    · have hpw : processWhere whereList = [] :=
        List.length_eq_zero.mp (Nat.eq_zero_of_not_pos hlen)
      simp only [adapter_findMany, db_query, cFetch, runQuery, applyLimit,
        if_neg hlen, List.map_eq_nil]
      rw [h3, hpw]
      have h2 : (fun r : Rec => !matchesConds (buildConds []) r) = (fun _ : Rec => false) :=
        funext (fun r => rfl)
      rw [h2, List.filter_false]
      rfl

/-- C6, witness: deleting three matching records returns the count 3 and a
subsequent `findMany` with the same filters returns the empty sequence. -/
theorem C6_witness :
    (adapter_deleteMany ctx0
        { recs := [[("id", Val.str "a"), ("role", Val.str "m")],
                   [("id", Val.str "b"), ("role", Val.str "m")],
                   [("id", Val.str "c"), ("role", Val.str "m")]], trace := [] }
        "user" [⟨"role", none, Val.str "m", none⟩]).1 = Val.num 3 ∧
    (adapter_findMany ctx0
        (adapter_deleteMany ctx0
          { recs := [[("id", Val.str "a"), ("role", Val.str "m")],
                     [("id", Val.str "b"), ("role", Val.str "m")],
                     [("id", Val.str "c"), ("role", Val.str "m")]], trace := [] }
          "user" [⟨"role", none, Val.str "m", none⟩]).2
        "user" [⟨"role", none, Val.str "m", none⟩] none none).1 = [] := by
  have h := C6_deleteMany_deletes_each_match ctx0
    { recs := [[("id", Val.str "a"), ("role", Val.str "m")],
               [("id", Val.str "b"), ("role", Val.str "m")],
               [("id", Val.str "c"), ("role", Val.str "m")]], trace := [] }
    "user" [⟨"role", none, Val.str "m", none⟩] (by decide) (by decide)
  exact ⟨h.1.trans (by decide), h.2.2.2⟩

theorem hasField_setField_present {r : Rec} {k0 : String} (k : String) (v : Val)
    (h : hasField r k0 = true) : hasField (setField r k0 v) k = hasField r k := by
  rw [hasField_setField]
  by_cases hk : k = k0
  · subst hk
    simp [h]
  · simp [hk]

theorem hasField_transformOutput (ctx : AdapterCtx) (r : Rec) (k : String) :
    hasField (transformOutput ctx r) k = hasField r k := by
  simp only [transformOutput]
  by_cases h1 : ((getFieldJS r "createdAt").truthy &&
      !((getFieldJS r "createdAt").isDateObj)) = true
  · rw [if_pos h1]
    have hp1 : hasField r "createdAt" = true :=
      hasField_of_truthy (Bool.and_elim_left h1)
    set r1 := setField r "createdAt" (.date (ctx.parseDate (getFieldJS r "createdAt"))) with hr1
    by_cases h2 : ((getFieldJS r1 "updatedAt").truthy &&
        !((getFieldJS r1 "updatedAt").isDateObj)) = true
    · rw [if_pos h2]
      have hp2 : hasField r1 "updatedAt" = true :=
        hasField_of_truthy (Bool.and_elim_left h2)
      rw [hasField_setField_present k _ hp2]
      exact hasField_setField_present k _ hp1
    · rw [if_neg h2]
      exact hasField_setField_present k _ hp1
  · rw [if_neg h1]
    by_cases h2 : ((getFieldJS r "updatedAt").truthy &&
        !((getFieldJS r "updatedAt").isDateObj)) = true
    · rw [if_pos h2]
      exact hasField_setField_present k _ (hasField_of_truthy (Bool.and_elim_left h2))
    · rw [if_neg h2]

theorem hasField_projectSelect (select : List String) (res : Rec) (k : String) :
    hasField (projectSelect select res) k = (select.contains k && hasField res k) := by
  suffices h : ∀ acc : Rec, hasField (select.foldl (fun result key =>
      if hasField res key then setField result key (getFieldJS res key)
      else result) acc) k =
      (hasField acc k || (select.contains k && hasField res k)) by
    have := h []
    simpa [projectSelect, hasField, getField] using this
  induction select with
  | nil => intro acc; simp
  | cons key rest ih =>
    intro acc
    simp only [List.foldl_cons]
    rw [ih]
    by_cases hres : hasField res key = true
    · rw [if_pos hres, hasField_setField]
      by_cases hk : k = key
      · subst hk
        simp [hres, List.contains_cons]
      · simp [hk, List.contains_cons]
    · rw [if_neg hres]
      by_cases hk : k = key
      · subst hk
        have : ¬ hasField res k = true := hres
        simp [List.contains_cons, Bool.eq_false_iff.mpr this]
      · simp [hk, List.contains_cons]

/-- C8: with a non-empty field-selection list, the record returned by
`findOne` (and by `create`) contains a key exactly when that key was
requested **and** is present on the underlying record — the fetched record
for `findOne`, the store's create response for `create` — so a requested
field absent from the source is skipped rather than included or erroring,
and the result never holds a key the underlying record lacks. -/
theorem C8_selection_never_adds_absent_fields
    (ctx : AdapterCtx) (s : ClientState) (model : String)
    (whereList : List WhereCond) (values : Rec) (select : List String)
    (hsel : select ≠ []) (k : String) :
    (∀ r u, (adapter_findOne ctx s model whereList select).1 = some r →
        (db_queryOne s (processWhere whereList)).1 = some u →
        hasField r k = (select.contains k && hasField u k)) ∧
    (∀ r, (adapter_create ctx s model values select).1 = some r →
        hasField r k = (select.contains k &&
          hasField (ctx.insertResp (transformInput ctx values model .create)) k)) := by
  have hsel' : select.isEmpty = false := by
    cases select with
    | nil => exact absurd rfl hsel
    | cons a l => rfl
  constructor
  · intro r u hr hu
    rcases hq : db_queryOne s (processWhere whereList) with ⟨res, s1⟩
    have hres : res = some u := by rw [hq] at hu; exact hu
    simp only [adapter_findOne, hq, hres] at hr
    have hr' : r = transformOutput ctx (selectResult select u) :=
      (Option.some_inj.mp hr).symm
    rw [hr', hasField_transformOutput]
    simp only [selectResult, hsel', Bool.false_eq_true, if_false]
    exact hasField_projectSelect select u k
  · intro r hr
    simp only [adapter_create, db_insert, cInsert] at hr
    have hr' : r = transformOutput ctx (selectResult select
        (ctx.insertResp (transformInput ctx values model .create))) :=
      (Option.some_inj.mp hr).symm
    rw [hr', hasField_transformOutput]
    simp only [selectResult, hsel', Bool.false_eq_true, if_false]
    exact hasField_projectSelect select
      (ctx.insertResp (transformInput ctx values model .create)) k

/-- C8, witness: a `findOne` with selection `["email", "ghost"]` over a
record lacking `"ghost"` returns exactly the `email` field. -/
theorem C8_witness :
    hasField [("email", Val.str "a@b.com")] "email" =
      (["email", "ghost"].contains "email" &&
        hasField [("id", Val.str "u1"), ("email", Val.str "a@b.com"),
          ("name", Val.str "Ann")] "email") ∧
    hasField [("email", Val.str "a@b.com")] "ghost" =
      (["email", "ghost"].contains "ghost" &&
        hasField [("id", Val.str "u1"), ("email", Val.str "a@b.com"),
          ("name", Val.str "Ann")] "ghost") :=
  ⟨(C8_selection_never_adds_absent_fields ctx0
      { recs := [[("id", Val.str "u1"), ("email", Val.str "a@b.com"),
        ("name", Val.str "Ann")]], trace := [] }
      "user" [] [] ["email", "ghost"] (by decide) "email").1
      [("email", Val.str "a@b.com")]
      [("id", Val.str "u1"), ("email", Val.str "a@b.com"), ("name", Val.str "Ann")]
      rfl rfl,
   (C8_selection_never_adds_absent_fields ctx0
      { recs := [[("id", Val.str "u1"), ("email", Val.str "a@b.com"),
        ("name", Val.str "Ann")]], trace := [] }
      "user" [] [] ["email", "ghost"] (by decide) "ghost").1
      [("email", Val.str "a@b.com")]
      [("id", Val.str "u1"), ("email", Val.str "a@b.com"), ("name", Val.str "Ann")]
      rfl rfl⟩

theorem heapRead_append (h : CondHeap) (t : List WhereCond) (a : Nat)
    (ha : a < h.conds.length) :
    heapRead { conds := h.conds ++ t } a = heapRead h a := by
  unfold heapRead
  rw [List.getD_eq_getElem?_getD, List.getD_eq_getElem?_getD,
    List.getElem?_append, if_pos ha]

theorem transformWhereOperatorsH_spec :
    ∀ (arr : List Nat) (h : CondHeap),
      (∀ a ∈ arr, a < h.conds.length) →
      (transformWhereOperatorsH h arr).1.conds =
          h.conds ++ arr.map (fun a => cloneMapped (heapRead h a)) ∧
      (transformWhereOperatorsH h arr).2 =
          List.range' h.conds.length arr.length := by
  intro arr
  induction arr with
  | nil =>
    intro h hv
    exact ⟨by simp [transformWhereOperatorsH], by simp [transformWhereOperatorsH]⟩
  | cons a rest ih =>
    intro h hv
    have hva : a < h.conds.length := hv a (List.mem_cons_self a rest)
    have hvr : ∀ b ∈ rest, b < (h.conds ++ [cloneMapped (heapRead h a)]).length := by
      intro b hb
      have := hv b (List.mem_cons_of_mem a hb)
      simp only [List.length_append, List.length_cons, List.length_nil]
      omega
    have hrec := ih { conds := h.conds ++ [cloneMapped (heapRead h a)] } hvr
    have hmap : rest.map (fun b =>
        cloneMapped (heapRead { conds := h.conds ++ [cloneMapped (heapRead h a)] } b)) =
        rest.map (fun b => cloneMapped (heapRead h b)) := by
      apply List.map_congr_left
      intro b hb
      rw [heapRead_append h [cloneMapped (heapRead h a)] b
        (hv b (List.mem_cons_of_mem a hb))]
    constructor
    · show (transformWhereOperatorsH { conds := h.conds ++ [cloneMapped (heapRead h a)] }
          rest).1.conds = _
      rw [hrec.1, hmap]
      simp [List.append_assoc]
    · show h.conds.length :: (transformWhereOperatorsH
          { conds := h.conds ++ [cloneMapped (heapRead h a)] } rest).2 = _
      rw [hrec.2]
      simp only [List.length_append, List.length_cons, List.length_nil,
        List.map_cons, List.length_map]
      rw [List.range'_succ]

theorem map_heapRead_range' :
    ∀ (post pre : List WhereCond),
      (List.range' pre.length post.length).map
        (fun a => heapRead { conds := pre ++ post } a) = post := by
  intro post
  induction post with
  | nil => intro pre; simp
  | cons c rest ih =>
    intro pre
    rw [List.length_cons, List.range'_succ, List.map_cons]
    have h0 : heapRead { conds := pre ++ c :: rest } pre.length = c := by
      unfold heapRead
      rw [List.getD_eq_getElem?_getD, List.getElem?_append_right (le_refl _)]
      simp
    have h1 : (List.range' (pre.length + 1) rest.length).map
        (fun a => heapRead { conds := pre ++ c :: rest } a) = rest := by
      have := ih (pre ++ [c])
      simpa [List.append_assoc] using this
    rw [h0, h1]

/-- C9: the where-clause processing never writes through the caller's
structures.  In the heap model of JS condition objects (addresses into an
allocation list; `transformWhereOperators` reads each input object and
allocates a clone; `filterInvalidOperators` only reads and rebinds a
local), processing a valid array of addresses (1) leaves every
pre-existing heap cell — in particular each caller-supplied condition
object — unchanged, (2) returns only freshly allocated addresses, and
(3) the fresh objects hold exactly the functional translation
`transformWhereOperators` of the values read from the caller's array, so
translation produces a new sequence of cloned conditions. -/
theorem C9_processing_never_mutates_caller
    (h : CondHeap) (arr : List Nat)
    (hv : ∀ a ∈ arr, a < h.conds.length) :
    (processWhereH h arr).1.conds.take h.conds.length = h.conds ∧
    (∀ a ∈ (processWhereH h arr).2, h.conds.length ≤ a) ∧
    (processWhereH h arr).2.map (fun a => heapRead (processWhereH h arr).1 a) =
      transformWhereOperators (arr.map (fun a => heapRead h a)) := by
  have hspec := transformWhereOperatorsH_spec arr h hv
  have hfil : processWhereH h arr = transformWhereOperatorsH h arr := rfl
  have hh : (transformWhereOperatorsH h arr).1 =
      { conds := h.conds ++ arr.map (fun a => cloneMapped (heapRead h a)) } :=
    congrArg CondHeap.mk hspec.1
  refine ⟨?_, ?_, ?_⟩
  · rw [hfil, hspec.1]
    exact List.take_left h.conds _
  · intro a ha
    rw [hfil, hspec.2] at ha
    exact (List.mem_range'_1.mp ha).1
  · rw [hfil, hh, hspec.2]
    have hlen : arr.length = (arr.map (fun a => cloneMapped (heapRead h a))).length := by
      rw [List.length_map]
    rw [hlen]
    rw [map_heapRead_range' (arr.map (fun a => cloneMapped (heapRead h a))) h.conds]
    unfold transformWhereOperators
    rw [List.map_map]
    rfl

/-- C9, witness: the frame theorem at a concrete two-condition heap — the
original cells survive processing and the outputs are their translation. -/
theorem C9_witness :
    (processWhereH { conds := [⟨"a", some "==", Val.num 1, none⟩,
        ⟨"b", none, Val.num 2, none⟩] } [0, 1]).1.conds.take 2 =
      [⟨"a", some "==", Val.num 1, none⟩, ⟨"b", none, Val.num 2, none⟩] ∧
    (processWhereH { conds := [⟨"a", some "==", Val.num 1, none⟩,
        ⟨"b", none, Val.num 2, none⟩] } [0, 1]).2.map
        (fun a => heapRead (processWhereH { conds := [⟨"a", some "==", Val.num 1, none⟩,
          ⟨"b", none, Val.num 2, none⟩] } [0, 1]).1 a) =
      transformWhereOperators [⟨"a", some "==", Val.num 1, none⟩,
        ⟨"b", none, Val.num 2, none⟩] := by
  have h := C9_processing_never_mutates_caller
    { conds := [⟨"a", some "==", Val.num 1, none⟩, ⟨"b", none, Val.num 2, none⟩] }
    [0, 1] (by decide)
  exact ⟨h.1, h.2.2⟩
